import Mathlib

/-!
Verification of the lebot plan-execution engine against its source.

The development shallowly embeds, in Lean, the parts of the repository the
claims are about:

* `src/tools/session.py` — the `PersistentSSMSession` remote command channel
  (state: `current_directory`, `environment_vars`, `command_history`;
  operations: `execute_command` and its three sub-command handlers);
* `src/agent.py` — the `AWSAgent.run` plan loop with compensation, the
  success-judgment check in `get_data_with_tools`, and the 1900-character
  message chunking;
* `src/tools/github.py` — `analyze_readme_for_setup` and
  `setup_github_project`.

External collaborators (the SSM remote host and the LLM service) are modelled
as oracles: functions supplied as parameters that give, for each issued remote
command, its stdout and whether the SDK call raises; and, for each LLM call,
its (already JSON-decoded) reply.  The embedding itself is translated from the
Python source; exceptions are modelled with `Except`.

A Python `str` is a sequence of code points; it is modelled by Lean `String`,
with the Python string primitives the source uses (`strip`, `split`,
`startswith`, `in`, `replace`, slicing) spelled out as structurally recursive
functions over the underlying character list, so that every definition
evaluates by kernel reduction on concrete inputs.
-/

namespace Lebot

/-! ## Python string primitives -/

/-- A single-quote character, written via its code point so shell command
strings can be assembled exactly as in the Python source. -/
def sq : String := String.singleton (Char.ofNat 39)

/-- The equals-sign character. -/
def eqc : Char := Char.ofNat 61

/-- Python `str.isspace` members relevant to `str.strip()`: space, tab,
newline, carriage return, vertical tab, form feed. -/
def pyIsSpace (c : Char) : Bool :=
  c = ' ' || c = '\t' || c = '\n' || c = '\x0d' || c = '\x0b' || c = '\x0c'

/-- Python `s.strip()`: remove whitespace from both ends. -/
def pyStrip (s : String) : String :=
  ⟨((s.toList.dropWhile pyIsSpace).reverse.dropWhile pyIsSpace).reverse⟩

/-- Python `s[n:]` (slicing by code points). -/
def pyDrop (s : String) (n : Nat) : String := ⟨s.toList.drop n⟩

/-- Python `s.startswith(pre)`. -/
def pyStartsWith (s pre : String) : Bool := pre.toList.isPrefixOf s.toList

/-- Python `c in s` for a single character. -/
def pyContainsChar (s : String) (c : Char) : Bool := s.toList.contains c

/-- The scan behind Python `s.split("&&")`: `acc` holds the characters of the
current fragment in reverse; a fragment ends at each non-overlapping
occurrence of `&&`. -/
def splitAmpAux : List Char → List Char → List (List Char)
  | acc, [] => [acc.reverse]
  | acc, [c] => [(acc.reverse) ++ [c]]
  | acc, c1 :: c2 :: rest =>
      if c1 = '&' && c2 = '&' then acc.reverse :: splitAmpAux [] rest
      else splitAmpAux (c1 :: acc) (c2 :: rest)

/-- Python `s.split("&&")`. -/
def pySplitAmp (s : String) : List String :=
  (splitAmpAux [] s.toList).map (fun l => ⟨l⟩)

/-- Locate the first occurrence of `c`, returning the characters before and
after it. -/
def splitFirst (c : Char) : List Char → Option (List Char × List Char)
  | [] => none
  | x :: xs =>
      if x = c then some ([], xs)
      else (splitFirst c xs).map (fun p => (x :: p.1, p.2))

/-- Python `s.split("=", 1)`: a one-element list when `=` is absent, else the
parts before and after the first `=`. -/
def pySplitEq1 (s : String) : List String :=
  match splitFirst eqc s.toList with
  | none => [s]
  | some (a, b) => [⟨a⟩, ⟨b⟩]

/-- Replace every occurrence of the character `c` by `rep`. -/
def replaceChar (c : Char) (rep : List Char) : List Char → List Char
  | [] => []
  | x :: xs =>
      if x = c then rep ++ replaceChar c rep xs
      else x :: replaceChar c rep xs

/-- Python `s.replace(old, new)` for a one-character `old`. -/
def pyReplaceChar (s : String) (c : Char) (rep : String) : String :=
  ⟨replaceChar c rep.toList s.toList⟩

/-- Predicate: `nee` occurs as a contiguous substring of `hay` — The Python `in` operator
on strings, over the character lists. -/
def listContainsSub (hay nee : List Char) : Bool :=
  match hay with
  | [] => nee.isEmpty
  | _ :: t => nee.isPrefixOf hay || listContainsSub t nee

/-- Python `needle in haystack` for strings. -/
def containsSubstr (haystack needle : String) : Bool :=
  listContainsSub haystack.toList needle.toList

/-! ## Session state (`PersistentSSMSession.__init__`, session.py lines 41-47) -/

/-- Mutable state of a `PersistentSSMSession`: the simulated working
directory, the environment-variable mapping (a Python dict, i.e. an
insertion-ordered association list) and the raw command history. -/
structure SessionState where
  current_directory : String
  environment_vars : List (String × String)
  command_history : List String
deriving DecidableEq, Repr

/-- Per-session constants fixed at construction time. -/
structure Config where
  user : String
deriving DecidableEq, Repr

/-- Source line 47: `self.run_from_current_user = f"sudo -u {user} bash -c "` (line 47). -/
def run_from_current_user (cfg : Config) : String :=
  "sudo -u " ++ cfg.user ++ " bash -c "

/-- Source line 61: `self.conda_path = "/home/ec2-user/miniconda/bin/conda"` (line 61). -/
def conda_path : String := "/home/ec2-user/miniconda/bin/conda"

/-- Source line 60: `self.env = f"{user}_env"` (line 60). -/
def envName (cfg : Config) : String := cfg.user ++ "_env"

/-- Oracle for the stateless remote-command primitive (`ssm_client.send_command`
plus `get_command_invocation`): for each submitted command string, the stdout
content it produces, and whether the SDK round-trip raises an exception. -/
structure Remote where
  stdout : String → String
  raisesOn : String → Bool
  errMsg : String → String

/-- Python dict assignment `d[k] = v`: replace the value in place when the key
is present, otherwise append at the end (insertion order preserved). -/
def dictSet (m : List (String × String)) (k v : String) : List (String × String) :=
  if m.any (fun p => p.fst = k) then
    m.map (fun p => if p.fst = k then (k, v) else p)
  else m ++ [(k, v)]

/-! ## `_handle_cd_command` (session.py lines 144-182) -/

/-- The existence-checked probe command built by `_handle_cd_command`
(lines 148-162), for a given simulated working directory and the extracted
`dir_path`. -/
def cdCheckCmd (cfg : Config) (cwd dir_path : String) : String :=
  if dir_path = "" then
    run_from_current_user cfg ++ "\"cd && pwd\""
  else if pyStartsWith dir_path "/" then
    run_from_current_user cfg ++ " \"if [ -d " ++ sq ++ dir_path ++ sq
      ++ " ]; then cd " ++ sq ++ dir_path ++ sq
      ++ " && pwd; else echo " ++ sq ++ "Directory not found" ++ sq ++ "; fi\" "
  else
    run_from_current_user cfg ++ " \"if [ -d " ++ sq ++ cwd ++ "/" ++ dir_path ++ sq
      ++ " ] || [ -d " ++ sq ++ dir_path ++ sq
      ++ " ]; then cd " ++ sq ++ cwd ++ sq
      ++ " && cd " ++ sq ++ dir_path ++ sq
      ++ " && pwd; else echo " ++ sq ++ "Directory not found" ++ sq ++ "; fi\" "

/-- Model of `_handle_cd_command` (lines 144-182).  Returns the updated state, the
output of the sub-command, and the list of remote commands issued.  The SSM calls
are not wrapped in try/except in the source, so an SDK exception propagates:
it is modelled by the `Except.error` case. -/
def handle_cd (cfg : Config) (remote : Remote) (st : SessionState)
    (command : String) : Except String (SessionState × String × List String) :=
  let dir_path := pyStrip (pyDrop (pyStrip command) 3)
  let check_cmd := cdCheckCmd cfg st.current_directory dir_path
  if remote.raisesOn check_cmd then
    .error (remote.errMsg check_cmd)
  else
    let result := pyStrip (remote.stdout check_cmd)
    if result ≠ "Directory not found" then
      .ok ({ st with
              current_directory := result,
              command_history := st.command_history ++ [command] },
           "Changed to directory: " ++ result, [check_cmd])
    else
      .ok (st, "Directory not found", [check_cmd])

/-! ## `_handle_env_var_setting` (session.py lines 184-207) -/

/-- The remote command built by `_handle_env_var_setting` (lines 191-194). -/
def envSetCmd (cfg : Config) (cwd var_name var_value : String) : String :=
  run_from_current_user cfg ++ " \"cd " ++ sq ++ cwd ++ sq
    ++ " && " ++ var_name ++ "=" ++ var_value
    ++ " && echo " ++ sq ++ "Set " ++ var_name ++ "=" ++ var_value ++ sq ++ "\" "

/-- Model of `_handle_env_var_setting` (lines 184-207).
`command.strip().split("=", 1)` unpacks into name and value; when no `=` is
present the Python unpacking raises `ValueError`, caught by the surrounding
try/except.  Note the local dict update happens before the remote call, so it
survives a remote exception; the history append happens after, so it does
not. -/
def handle_env (cfg : Config) (remote : Remote) (st : SessionState)
    (command : String) : SessionState × String × List String :=
  match pySplitEq1 (pyStrip command) with
  | [var_name, var_value] =>
      let st1 := { st with environment_vars := dictSet st.environment_vars var_name var_value }
      let full_command := envSetCmd cfg st.current_directory var_name var_value
      if remote.raisesOn full_command then
        (st1, "Error setting environment variable: " ++ remote.errMsg full_command, [full_command])
      else
        ({ st1 with command_history := st1.command_history ++ [command] },
         "Set environment variable " ++ var_name ++ "=" ++ var_value, [full_command])
  | _ =>
      (st, "Error setting environment variable: not enough values to unpack (expected 2, got 1)", [])

/-! ## `_execute_normal_command` (session.py lines 209-241) -/

/-- The character class of `shlex._find_unsafe` (ASCII word characters plus
`@ % + = : , .` and the slash and hyphen): characters that do NOT force
quoting. -/
def shlexSafeChar (c : Char) : Bool :=
  (c.isAlpha && c.toNat < 128) || c.isDigit || c = Char.ofNat 95
    || c = '@' || c = '%' || c = '+' || c = eqc || c = ':'
    || c = ',' || c = '.' || c = '/' || c = '-'

/-- The Python function `shlex.quote`. -/
def shlexQuote (s : String) : String :=
  if s = "" then sq ++ sq
  else if s.toList.all shlexSafeChar then s
  else sq ++ (pyReplaceChar s (Char.ofNat 39) (sq ++ "\"" ++ sq ++ "\"" ++ sq)) ++ sq

/-- The full remote command built by `_execute_normal_command`
(lines 211-223): working directory and accumulated environment variables are
prefixed, the shell logic is `shlex.quote`d, and everything runs inside the
conda environment of the user. -/
def normalFullCmd (cfg : Config) (st : SessionState) (command : String) : String :=
  let env_vars := String.intercalate " "
    (st.environment_vars.map (fun p => p.fst ++ "=" ++ sq ++ p.snd ++ sq))
  let envPref := if env_vars ≠ "" then env_vars ++ " " else ""
  let shell_logic := "cd " ++ sq ++ st.current_directory ++ sq ++ " && " ++ envPref ++ command
  conda_path ++ " run -n " ++ envName cfg ++ " bash -c " ++ shlexQuote shell_logic

/-- Model of `_execute_normal_command` (lines 209-241).  The whole remote round-trip is
wrapped in try/except, so an SDK exception is converted into an error string;
the history append happens only on the non-exception path. -/
def handle_normal (cfg : Config) (remote : Remote) (st : SessionState)
    (command : String) : SessionState × String × List String :=
  let full_command := normalFullCmd cfg st command
  if remote.raisesOn full_command then
    (st, "Error executing command: " ++ remote.errMsg full_command, [full_command])
  else
    ({ st with command_history := st.command_history ++ [command] },
     remote.stdout full_command, [full_command])

/-! ## `execute_command` (session.py lines 121-142) -/

/-- The split performed by `execute_command` line 125:
`[cmd.strip() for cmd in command.split("&&") if cmd.strip()]`. -/
def subCommands (raw : String) : List String :=
  ((pySplitAmp raw).map pyStrip).filter (fun c => c ≠ "")

/-- The per-sub-command dispatch of `execute_command` (lines 129-140): `cd `
prefix first, then the environment-variable special case (`"=" in cmd` and not
prefixed by `export `/`echo `/`printf `), else a normal command. -/
def dispatchOne (cfg : Config) (remote : Remote) (st : SessionState)
    (cmd : String) : Except String (SessionState × String × List String) :=
  if pyStartsWith cmd "cd " then
    handle_cd cfg remote st cmd
  else if pyContainsChar cmd eqc
      && !(pyStartsWith cmd "export " || pyStartsWith cmd "echo " || pyStartsWith cmd "printf ") then
    .ok (handle_env cfg remote st cmd)
  else
    .ok (handle_normal cfg remote st cmd)

/-- The sequential loop of `execute_command` (lines 127-140): every sub-command
is dispatched in order, each against the state left by its predecessor, and
its output is appended to `results` — there is no case analysis on earlier
outputs, hence no short-circuit. -/
def executeList (cfg : Config) (remote : Remote) :
    SessionState → List String → Except String (SessionState × List String × List String)
  | st, [] => .ok (st, [], [])
  | st, c :: cs => do
      let (st1, out, sent1) ← dispatchOne cfg remote st c
      let (st2, outs, sents) ← executeList cfg remote st1 cs
      .ok (st2, out :: outs, sent1 ++ sents)

/-- Model of `execute_command` (lines 121-142): split, dispatch each sub-command,
return `"\n".join(results)`.  The result also carries the `results` list
itself and the log of remote commands issued, for specification purposes. -/
def execute_command (cfg : Config) (remote : Remote) (st : SessionState)
    (raw : String) : Except String (SessionState × String × List String × List String) := do
  let (st', results, sent) ← executeList cfg remote st (subCommands raw)
  .ok (st', String.intercalate "\n" results, results, sent)

/-! ## agent.py: the success judgment (`get_data_with_tools`, lines 253-291)

The JSON reply of the LLM for the judgment call is decoded by `json.loads`; the
`"successful"` field can be a value of any JSON type. -/

/-- A decoded JSON scalar, as `json.loads` can produce for the `"successful"`
field. -/
inductive JVal where
  | jstr : String → JVal
  | jbool : Bool → JVal
  | jnum : Int → JVal
  | jnull : JVal
deriving DecidableEq, Repr

/-- The exception text of agent.py line 261. -/
def judgmentErrorMsg : String :=
  "The model did not return True or False for the successful field!"

/-- Lines 259-261: `if tool_success not in ["True", "False"]: raise ...`.
The Python `in` operator compares the decoded value for equality with the two string
tokens, so a bool, number, null or any other string fails the check. -/
def checkJudgment (v : JVal) : Except String JVal :=
  if v ≠ JVal.jstr "True" ∧ v ≠ JVal.jstr "False" then .error judgmentErrorMsg
  else .ok v

/-- The tail of `get_data_with_tools` after the tool call has produced its raw
result (lines 253-291): run the success-judgment check, then return the
failure narration with `False` (lines 263-275) or the success narration with
`True` (lines 277-291).  The tool dispatch and the two summarization LLM
calls are oracle-supplied (`final_tool_str`, `failNarr`, `succNarr`). -/
def get_data_with_tools (judgment : JVal) (final_tool_str failNarr succNarr : String) :
    Except String (String × String × Bool) := do
  let v ← checkJudgment judgment
  if v = JVal.jstr "False" then
    .ok (failNarr, final_tool_str, false)
  else
    .ok (succNarr, final_tool_str, true)

/-! ## agent.py: the plan loop with compensation (`AWSAgent.run`, lines 366-438)

Oracles:
* `fwd i` — the result of `get_data_with_tools` for forward step `i`:
  `(narration, rendered step record, judged success)`, or an exception;
* `undoSyn j` — the inverse-synthesis LLM call for step `j` (lines 387-405):
  `none` models the literal `"{}"` reply ("nothing to undo"), `some s` a
  non-empty JSON object, `.error` a `json.loads` failure;
* `undoExec j` — the result of `get_data_with_tools` on the synthesized
  inverse of step `j` (lines 411-413). -/

/-- Line 433: `step_memory += f"**✅ Step {i+1}**:\n{tool_response}"` (line 433). -/
def successBlock (i : Nat) (narration : String) : String :=
  "**✅ Step " ++ toString (i+1) ++ "**:\n" ++ narration

/-- Line 381: `step_memory += f"**❌ Step {i+1}**:\n{tool_response}\n"` (line 381). -/
def failureBlock (i : Nat) (narration : String) : String :=
  "**❌ Step " ++ toString (i+1) ++ "**:\n" ++ narration ++ "\n"

/-- Everything `AWSAgent.run` accumulates across the step loop: the forward
steps executed, the inverse-synthesis calls issued and the inverse executions
performed during compensation (in order), the `step_memory` string, the
`step_summaries` list, and the `undo_failures` / `tool_success` flags. -/
structure RunTrace where
  executed : List Nat
  synCalls : List Nat
  execCalls : List Nat
  stepMemory : String
  stepSummaries : List String
  undoFailures : Bool
  toolSuccess : Bool
deriving DecidableEq, Repr

/-- The compensation loop `for j in range(i, -1, -1)` (lines 383-418), run on
the index list `[i, i-1, ..., 0]`.  For every index an inverse-synthesis LLM
call is issued; on the `"{}"` reply the index is skipped (`continue`, line
409); otherwise the inverse is executed and a judged failure sets the
`undo_failures` flag without stopping the scan (lines 414-416).  Returns the
synthesis-call indices, the executed-inverse indices, and the flag. -/
def compensate (undoSyn : Nat → Except String (Option String))
    (undoExec : Nat → Except String (String × String × Bool)) :
    List Nat → Except String (List Nat × List Nat × Bool)
  | [] => .ok ([], [], false)
  | j :: rest => do
      let syn ← undoSyn j
      match syn with
      | none => do
          let (ss, es, uf) ← compensate undoSyn undoExec rest
          .ok (j :: ss, es, uf)
      | some _ => do
          let (_resp, _tstr, succ) ← undoExec j
          let (ss, es, uf) ← compensate undoSyn undoExec rest
          .ok (j :: ss, j :: es, (!succ) || uf)

/-- The forward step loop `for i, tool in enumerate(tool_calls)`
(lines 371-436), run on the remaining index list.  On success the narration
is folded into `step_memory` and `step_summaries` and the loop advances; on
the first judged failure the failure narration is folded into `step_memory`,
compensation runs over `[i, ..., 0]`, and the loop `break`s (line 423), so
later indices are never executed. -/
def runSteps (fwd : Nat → Except String (String × String × Bool))
    (undoSyn : Nat → Except String (Option String))
    (undoExec : Nat → Except String (String × String × Bool)) :
    List Nat → Except String RunTrace
  | [] => .ok ⟨[], [], [], "", [], false, true⟩
  | i :: rest => do
      let (resp, tstr, succ) ← fwd i
      if succ then do
        let t ← runSteps fwd undoSyn undoExec rest
        .ok { executed := i :: t.executed,
              synCalls := t.synCalls, execCalls := t.execCalls,
              stepMemory := successBlock i resp ++ t.stepMemory,
              stepSummaries := tstr :: resp :: t.stepSummaries,
              undoFailures := t.undoFailures, toolSuccess := t.toolSuccess }
      else do
        let (ss, es, uf) ← compensate undoSyn undoExec (List.range (i+1)).reverse
        .ok { executed := [i], synCalls := ss, execCalls := es,
              stepMemory := failureBlock i resp,
              stepSummaries := [], undoFailures := uf, toolSuccess := false }

/-- The step loop over the whole plan `List.range N` followed by the single
memory update `self.user_state_dict[message.author][1].append(step_memory)`
(line 438).  An exception anywhere in the loop propagates, skipping the
append. -/
def runAgent (fwd : Nat → Except String (String × String × Bool))
    (undoSyn : Nat → Except String (Option String))
    (undoExec : Nat → Except String (String × String × Bool))
    (N : Nat) (memory : List String) : Except String (List String × RunTrace) := do
  let t ← runSteps fwd undoSyn undoExec (List.range N)
  .ok (memory ++ [t.stepMemory], t)

/-- The generic failure reply of the top-level `except` handler
(lines 493-496). -/
def genericErrorReply : String :=
  "**Error occurred ❌**: An error occurred while processing your request. Please try again!"

/-- The outermost try/except of `AWSAgent.run` (lines 333, 493-497): the body runs
the plan and replies from the final summarization (`finalResponse`, the
reply-formatting of lines 440-491 abbreviated to its head line, which no
claim depends on); any exception is caught at this boundary and answered
with the generic failure reply, the memory update having been skipped. -/
def runTop (fwd : Nat → Except String (String × String × Bool))
    (undoSyn : Nat → Except String (Option String))
    (undoExec : Nat → Except String (String × String × Bool))
    (N : Nat) (memory : List String) (finalResponse : String) :
    List String × String :=
  match runAgent fwd undoSyn undoExec N memory with
  | .error _ => (memory, genericErrorReply)
  | .ok (mem', t) =>
      (mem',
       if t.toolSuccess then "**Task completed!** 🎉\n\n" ++ finalResponse
       else "**Task failure! ** ❌\n" ++ "Here is an explanation of why your request failed:\n\n" ++ finalResponse)

/-! ## agent.py: narration chunking (lines 425-432)

`for j in range(0, len(tool_response), 1900)` sends the slice
`tool_response[j : j + 1900]` per iteration.  A Python string is a sequence
of code points, modelled as `List Char`. -/

/-- The chunks emitted by a stride-`B` slice loop
`for j in range(0, len(l), B): l[j : j + B]`.  `B = 0` cannot occur in the
source (the stride is the literal 1900); it is mapped to `[]` for totality. -/
def chunksOf {α : Type} (B : Nat) : List α → List (List α)
  | [] => []
  | x :: xs =>
    match B with
    | 0 => []
    | b+1 => ((x :: xs).take (b+1)) :: chunksOf (b+1) (xs.drop b)
termination_by l => l.length
decreasing_by simp; omega

/-- The chunks of a narration sent by lines 426-430 (stride 1900). -/
def narrationChunks (s : List Char) : List (List Char) := chunksOf 1900 s

/-! ## tools/github.py: README analysis and project setup -/

/-- The README probe command of `analyze_readme_for_setup` (line 37). -/
def readmeCheckCmd (repo_directory : String) : String :=
  "cd /home/ec2-user/" ++ repo_directory
    ++ " && if [ -f README.md ]; then cat README.md; elif [ -f README.txt ]; then cat README.txt; elif [ -f README ]; then cat README; elif [ -f readme.md ]; then cat readme.md; else echo \"No README file found\"; fi"

/-- The result dict of `analyze_readme_for_setup`: a `status` string plus the
keys present on each branch (absent dict keys are `none`). -/
structure AnalyzeSetupResult where
  status : String
  error : Option String
  setup_steps : Option (List String)
  readme_content : Option String
  analysis : Option (List String)
deriving DecidableEq, Repr

/-- Model of `analyze_readme_for_setup` (github.py lines 25-120).  The channel is the
command channel (the session method `execute_command`), abstracted as `exec`; `llm` is the Mistral
analysis call (lines 92-101), `.ok` carrying the parsed `setup_steps` and
`.error` a raised/parse exception (handled at lines 108-113).  When the
README probe output contains `"No README file found"`, the Warning dict of
lines 43-48 is returned without issuing the dependency probe. -/
def analyze_readme_for_setup (exec : String → String)
    (llm : Except String (List String)) (repo_directory : String) :
    AnalyzeSetupResult :=
  let readme_result := exec (readmeCheckCmd repo_directory)
  if containsSubstr readme_result "No README file found" then
    { status := "Warning",
      error := some "No README file found in the repository",
      setup_steps := some [],
      readme_content := none, analysis := none }
  else
    match llm with
    | .ok steps =>
        { status := "Success",
          readme_content := some readme_result,
          analysis := some steps,
          error := none, setup_steps := none }
    | .error e =>
        { status := "Failed",
          error := some ("README analysis failed: " ++ e),
          setup_steps := some [],
          readme_content := none, analysis := none }

/-- One record of `step_results` built at github.py lines 243-249. -/
structure SetupStepRecord where
  step : String
  command : String
  status : String
  output : String
  error : String
deriving DecidableEq, Repr

/-- The result dict of `setup_github_project`. -/
structure SetupProjectResult where
  status : String
  error : Option String
  steps_executed : List SetupStepRecord
deriving DecidableEq, Repr

/-- The setup-step loop of `setup_github_project` (lines 237-250): each
non-blank step is executed through the channel and recorded;
`current_step` increments only for executed steps. -/
def runSetupSteps (exec : String → String) : List String → Nat → List SetupStepRecord
  | [], _ => []
  | s :: rest, n =>
      if pyStrip s ≠ "" then
        { step := "Setup step " ++ toString n ++ ": " ++ s,
          command := s, status := "Success",
          output := exec s, error := "" } :: runSetupSteps exec rest (n+1)
      else runSetupSteps exec rest n

/-- Model of `setup_github_project` (github.py lines 209-268).  Analyzes the README,
and — this is the decision the Warning claim turns on — aborts with a
`"Failed"` dict whenever `analysis_result["status"] != "Success"`
(lines 224-229), executing no setup steps; otherwise it runs every non-blank
setup step. -/
def setup_github_project (exec : String → String)
    (llm : Except String (List String)) (repo_directory : String) :
    SetupProjectResult :=
  let analysis_result := analyze_readme_for_setup exec llm repo_directory
  if analysis_result.status ≠ "Success" then
    { status := "Failed",
      error := some ("README analysis failed: " ++ (analysis_result.error.getD "Unknown error")),
      steps_executed := [] }
  else
    let setup_steps := analysis_result.analysis.getD []
    { status := "Success", error := none,
      steps_executed := runSetupSteps exec setup_steps 0 }

/-! ## Specification-side helper functions -/

/-- Whether the inverse-synthesis oracle answers step `j` with a non-empty
object (so that the inverse is actually executed). -/
def synSome (undoSyn : Nat → Except String (Option String)) (j : Nat) : Bool :=
  match undoSyn j with
  | .ok (some _) => true
  | _ => false

/-- Whether the executed inverse of step `j` was judged a failure. -/
def undoFailed (undoExec : Nat → Except String (String × String × Bool)) (j : Nat) : Bool :=
  match undoExec j with
  | .ok (_, _, s) => !s
  | _ => false

/-- Concatenation, in step order, of the success memory blocks of the given
step indices. -/
def memConcat (resp : Nat → String) : List Nat → String
  | [] => ""
  | i :: rest => successBlock i (resp i) ++ memConcat resp rest

/-- The `step_summaries` contribution of a run of successful steps: the
rendered step record then the narration, per step, in order. -/
def sumConcat (resp tstr : Nat → String) : List Nat → List String
  | [] => []
  | i :: rest => tstr i :: resp i :: sumConcat resp tstr rest

end Lebot

namespace Lebot

/-! # Theorems -/

/-- C10: for every input string to `execute_command` whose every `&&`-split
fragment is blank (in particular the empty string or pure whitespace), the
call returns the empty string, issues no remote command, and leaves the whole
session state unchanged. -/
theorem execute_blank (cfg : Config) (remote : Remote) (st : SessionState)
    (raw : String) (h : subCommands raw = []) :
    execute_command cfg remote st raw = .ok (st, "", [], []) := by
  unfold execute_command
  rw [h]
  rfl

/-- Witness for C10: the concrete input `"  && && "` splits into no non-blank
sub-commands and is executed to the empty output with no state change and no
remote traffic. -/
theorem execute_blank_witness :
    subCommands "  && && " = [] ∧
    execute_command ⟨"alice"⟩
      ⟨fun _ => "", fun _ => false, fun _ => ""⟩
      ⟨"/home/alice", [], []⟩ "  && && " =
      .ok (⟨"/home/alice", [], []⟩, "", [], []) :=
  ⟨by decide, execute_blank _ _ _ _ (by decide)⟩

/-- C4: a directory-change sub-command whose existence probe comes back with
the sentinel leaves the state (in particular `current_directory`) exactly
unchanged and returns `"Directory not found"` as output; and in every case
`current_directory` is replaced only when the probe round-trip returned
something other than the sentinel — it is then exactly the probed path, never
an optimistically assumed one. -/
theorem cd_not_found_semantics (cfg : Config) (remote : Remote)
    (st : SessionState) (command : String) :
    (remote.raisesOn (cdCheckCmd cfg st.current_directory (pyStrip (pyDrop (pyStrip command) 3))) = false →
     pyStrip (remote.stdout (cdCheckCmd cfg st.current_directory (pyStrip (pyDrop (pyStrip command) 3)))) = "Directory not found" →
     handle_cd cfg remote st command =
       .ok (st, "Directory not found",
            [cdCheckCmd cfg st.current_directory (pyStrip (pyDrop (pyStrip command) 3))])) ∧
    (∀ st' out sent, handle_cd cfg remote st command = .ok (st', out, sent) →
     st'.current_directory ≠ st.current_directory →
     pyStrip (remote.stdout (cdCheckCmd cfg st.current_directory (pyStrip (pyDrop (pyStrip command) 3)))) ≠ "Directory not found" ∧
     st'.current_directory =
       pyStrip (remote.stdout (cdCheckCmd cfg st.current_directory (pyStrip (pyDrop (pyStrip command) 3))))) := by
  constructor
  · intro hraise hprobe
    simp only [handle_cd, hraise, hprobe]
    simp
  · intro st' out sent h hne
    simp only [handle_cd] at h
    split at h
    · exact absurd h (by simp)
    · split at h
      · rename_i hres
        cases h
        exact ⟨hres, rfl⟩
      · cases h
        exact absurd rfl hne

/-- Witness for C4: with a remote whose probe answers the sentinel, changing
to `/nope` leaves the concrete session untouched and yields the sentinel. -/
theorem cd_not_found_witness :
    handle_cd ⟨"alice"⟩ ⟨fun _ => "Directory not found", fun _ => false, fun _ => ""⟩
      ⟨"/home/alice", [], []⟩ "cd /nope" =
      .ok (⟨"/home/alice", [], []⟩, "Directory not found",
           [cdCheckCmd ⟨"alice"⟩ "/home/alice" "/nope"]) := by
  have h := (cd_not_found_semantics ⟨"alice"⟩
    ⟨fun _ => "Directory not found", fun _ => false, fun _ => ""⟩
    ⟨"/home/alice", [], []⟩ "cd /nope").1 (by decide) (by decide)
  rw [h]
  exact congrArg _ (by decide)

/-- C7 counterexample: the sub-command `ls --color=auto` merely contains `=`
inside a larger command, yet the dispatch in `execute_command` sends it to the
environment-variable special case — recording the pair
`("ls --color", "auto")` in `environment_vars` — and does not execute it as
a normal command, contrary to the claim. -/
theorem env_dispatch_counterexample :
    dispatchOne ⟨"alice"⟩ ⟨fun _ => "out", fun _ => false, fun _ => ""⟩
      ⟨"/home/alice", [], []⟩ "ls --color=auto" =
      .ok (⟨"/home/alice", [("ls --color", "auto")], ["ls --color=auto"]⟩,
           "Set environment variable ls --color=auto",
           [envSetCmd ⟨"alice"⟩ "/home/alice" "ls --color" "auto"]) ∧
    dispatchOne ⟨"alice"⟩ ⟨fun _ => "out", fun _ => false, fun _ => ""⟩
      ⟨"/home/alice", [], []⟩ "ls --color=auto" ≠
      .ok (handle_normal ⟨"alice"⟩ ⟨fun _ => "out", fun _ => false, fun _ => ""⟩
        ⟨"/home/alice", [], []⟩ "ls --color=auto") := by
  refine ⟨rfl, fun h => absurd (Except.ok.inj h) ?_⟩
  decide

/-- C7 (amended): a sub-command is dispatched to the environment-variable
special case exactly when it contains an `=` character anywhere (not only in
`NAME=value` form) and is not prefixed by `cd `, `export `, `echo ` or
`printf `; the handler then splits at the first `=` and records that pair in
`environment_vars` — so a command like `ls --color=auto` is also treated as
an assignment rather than executed as a normal command. -/
theorem env_dispatch_amended (cfg : Config) (remote : Remote)
    (st : SessionState) (cmd : String)
    (h1 : pyStartsWith cmd "cd " = false)
    (h2 : pyContainsChar cmd eqc = true)
    (h3 : pyStartsWith cmd "export " = false)
    (h4 : pyStartsWith cmd "echo " = false)
    (h5 : pyStartsWith cmd "printf " = false) :
    dispatchOne cfg remote st cmd = .ok (handle_env cfg remote st cmd) ∧
    ∀ var_name var_value, pySplitEq1 (pyStrip cmd) = [var_name, var_value] →
      (handle_env cfg remote st cmd).1.environment_vars =
        dictSet st.environment_vars var_name var_value := by
  constructor
  · simp [dispatchOne, h1, h2, h3, h4, h5]
  · intro var_name var_value hsplit
    unfold handle_env
    rw [hsplit]
    by_cases hr : remote.raisesOn (envSetCmd cfg st.current_directory var_name var_value) = true
    · simp [hr]
    · simp at hr
      simp [hr]

/-- Witness for the amended C7: applying the theorem to the concrete command
`ls --color=auto`. -/
theorem env_dispatch_amended_witness :
    dispatchOne ⟨"alice"⟩ ⟨fun _ => "out", fun _ => false, fun _ => ""⟩
      ⟨"/home/alice", [], []⟩ "FOO=bar baz" =
      .ok (handle_env ⟨"alice"⟩ ⟨fun _ => "out", fun _ => false, fun _ => ""⟩
        ⟨"/home/alice", [], []⟩ "FOO=bar baz") ∧
    ∀ var_name var_value, pySplitEq1 (pyStrip "FOO=bar baz") = [var_name, var_value] →
      (handle_env ⟨"alice"⟩ ⟨fun _ => "out", fun _ => false, fun _ => ""⟩
        ⟨"/home/alice", [], []⟩ "FOO=bar baz").1.environment_vars =
        dictSet [] var_name var_value :=
  env_dispatch_amended ⟨"alice"⟩ ⟨fun _ => "out", fun _ => false, fun _ => ""⟩
    ⟨"/home/alice", [], []⟩ "FOO=bar baz"
    (by decide) (by decide) (by decide) (by decide) (by decide)

/-- The env-var handler never touches `current_directory`, and appends at most
the raw sub-command to the history. -/
theorem handle_env_frame (cfg : Config) (remote : Remote) (st : SessionState)
    (cmd : String) :
    (handle_env cfg remote st cmd).1.current_directory = st.current_directory ∧
    ((handle_env cfg remote st cmd).1.command_history = st.command_history ∨
     (handle_env cfg remote st cmd).1.command_history = st.command_history ++ [cmd]) := by
  simp only [handle_env]
  split
  · split
    · exact ⟨rfl, Or.inl rfl⟩
    · exact ⟨rfl, Or.inr rfl⟩
  · exact ⟨rfl, Or.inl rfl⟩

/-- The normal-command handler never touches `current_directory` or
`environment_vars`, and appends at most the raw sub-command to the history. -/
theorem handle_normal_frame (cfg : Config) (remote : Remote) (st : SessionState)
    (cmd : String) :
    (handle_normal cfg remote st cmd).1.current_directory = st.current_directory ∧
    (handle_normal cfg remote st cmd).1.environment_vars = st.environment_vars ∧
    ((handle_normal cfg remote st cmd).1.command_history = st.command_history ∨
     (handle_normal cfg remote st cmd).1.command_history = st.command_history ++ [cmd]) := by
  simp only [handle_normal]
  split
  · exact ⟨rfl, rfl, Or.inl rfl⟩
  · exact ⟨rfl, rfl, Or.inr rfl⟩

/-- The cd handler never touches `environment_vars`, and appends at most the
raw sub-command to the history. -/
theorem handle_cd_frame (cfg : Config) (remote : Remote) (st : SessionState)
    (cmd : String) (st' : SessionState) (out : String) (sent : List String)
    (h : handle_cd cfg remote st cmd = .ok (st', out, sent)) :
    st'.environment_vars = st.environment_vars ∧
    (st'.command_history = st.command_history ∨
     st'.command_history = st.command_history ++ [cmd]) := by
  simp only [handle_cd] at h
  split at h
  · exact absurd h (by simp)
  · split at h
    · cases h
      exact ⟨rfl, Or.inr rfl⟩
    · cases h
      exact ⟨rfl, Or.inl rfl⟩

/-- Any single dispatched sub-command only ever appends to the history. -/
theorem dispatchOne_history (cfg : Config) (remote : Remote) (st : SessionState)
    (cmd : String) (st' : SessionState) (out : String) (sent : List String)
    (h : dispatchOne cfg remote st cmd = .ok (st', out, sent)) :
    ∃ suffix, st'.command_history = st.command_history ++ suffix := by
  unfold dispatchOne at h
  split at h
  · rcases (handle_cd_frame cfg remote st cmd st' out sent h).2 with h2 | h2
    · exact ⟨[], by simpa using h2⟩
    · exact ⟨[cmd], h2⟩
  · split at h
    · have hst : (handle_env cfg remote st cmd).1 = st' :=
        congrArg Prod.fst (Except.ok.inj h)
      rcases (handle_env_frame cfg remote st cmd).2 with h2 | h2
      · exact ⟨[], by rw [← hst, h2]; simp⟩
      · exact ⟨[cmd], by rw [← hst, h2]⟩
    · have hst : (handle_normal cfg remote st cmd).1 = st' :=
        congrArg Prod.fst (Except.ok.inj h)
      rcases (handle_normal_frame cfg remote st cmd).2.2 with h2 | h2
      · exact ⟨[], by rw [← hst, h2]; simp⟩
      · exact ⟨[cmd], by rw [← hst, h2]⟩

/-- The sequential sub-command loop only ever appends to the history. -/
theorem executeList_history (cfg : Config) (remote : Remote) :
    ∀ (l : List String) (st st' : SessionState) (results sent : List String),
    executeList cfg remote st l = .ok (st', results, sent) →
    ∃ suffix, st'.command_history = st.command_history ++ suffix := by
  intro l
  induction l with
  | nil =>
    intro st st' results sent h
    simp only [executeList] at h
    cases h
    exact ⟨[], by simp⟩
  | cons c cs ih =>
    intro st st' results sent h
    simp only [executeList, bind, Except.bind] at h
    cases hd : dispatchOne cfg remote st c with
    | error e => rw [hd] at h; exact absurd h (by simp)
    | ok v =>
      rw [hd] at h
      obtain ⟨st1, out1, sent1⟩ := v
      dsimp only at h
      cases hrest : executeList cfg remote st1 cs with
      | error e => rw [hrest] at h; exact absurd h (by simp)
      | ok w =>
        rw [hrest] at h
        obtain ⟨st2, outs, sents⟩ := w
        dsimp only at h
        have hst : st2 = st' := congrArg Prod.fst (Except.ok.inj h)
        obtain ⟨suf1, h1⟩ := dispatchOne_history cfg remote st c st1 out1 sent1 hd
        obtain ⟨suf2, h2⟩ := ih st1 st2 outs sents hrest
        exact ⟨suf1 ++ suf2, by rw [← hst, h2, h1, List.append_assoc]⟩

/-- C9: a sub-command that is neither a directory change nor classified as an
environment-variable assignment leaves `current_directory` and
`environment_vars` exactly unchanged; conversely `current_directory` can only
change under a `cd ` sub-command and `environment_vars` only under an
assignment-classified one; and `command_history` only ever grows, both per
sub-command and across a whole `execute_command` call. -/
theorem dispatch_frame_effects (cfg : Config) (remote : Remote)
    (st : SessionState) (cmd : String) :
    ((pyStartsWith cmd "cd ") = false →
     (pyContainsChar cmd eqc
       && !(pyStartsWith cmd "export " || pyStartsWith cmd "echo " || pyStartsWith cmd "printf ")) = false →
     ∀ st' out sent, dispatchOne cfg remote st cmd = .ok (st', out, sent) →
       st'.current_directory = st.current_directory ∧
       st'.environment_vars = st.environment_vars ∧
       (st'.command_history = st.command_history ∨
        st'.command_history = st.command_history ++ [cmd])) ∧
    (∀ st' out sent, dispatchOne cfg remote st cmd = .ok (st', out, sent) →
       st'.current_directory ≠ st.current_directory →
       pyStartsWith cmd "cd " = true) ∧
    (∀ st' out sent, dispatchOne cfg remote st cmd = .ok (st', out, sent) →
       st'.environment_vars ≠ st.environment_vars →
       pyStartsWith cmd "cd " = false ∧
       (pyContainsChar cmd eqc
         && !(pyStartsWith cmd "export " || pyStartsWith cmd "echo " || pyStartsWith cmd "printf ")) = true) ∧
    (∀ st' out sent, dispatchOne cfg remote st cmd = .ok (st', out, sent) →
       ∃ suffix, st'.command_history = st.command_history ++ suffix) ∧
    (∀ raw st' out results sent,
       execute_command cfg remote st raw = .ok (st', out, results, sent) →
       ∃ suffix, st'.command_history = st.command_history ++ suffix) := by
  refine ⟨?_, ?_, ?_, ?_, ?_⟩
  · intro hcd henv st' out sent h
    unfold dispatchOne at h
    rw [hcd, henv] at h
    simp only [Bool.false_eq_true, if_false] at h
    have hst : (handle_normal cfg remote st cmd).1 = st' :=
      congrArg Prod.fst (Except.ok.inj h)
    rw [← hst]
    exact handle_normal_frame cfg remote st cmd
  · intro st' out sent h hne
    by_cases hcd : pyStartsWith cmd "cd " = true
    · exact hcd
    · exfalso
      simp only [Bool.not_eq_true] at hcd
      unfold dispatchOne at h
      rw [hcd] at h
      simp only [Bool.false_eq_true, if_false] at h
      split at h
      · have hst : (handle_env cfg remote st cmd).1 = st' :=
          congrArg Prod.fst (Except.ok.inj h)
        exact hne (hst ▸ (handle_env_frame cfg remote st cmd).1)
      · have hst : (handle_normal cfg remote st cmd).1 = st' :=
          congrArg Prod.fst (Except.ok.inj h)
        exact hne (hst ▸ (handle_normal_frame cfg remote st cmd).1)
  · intro st' out sent h hne
    by_cases hcd : pyStartsWith cmd "cd " = true
    · exfalso
      unfold dispatchOne at h
      rw [hcd] at h
      simp only [if_true] at h
      exact hne (handle_cd_frame cfg remote st cmd st' out sent h).1
    · simp only [Bool.not_eq_true] at hcd
      refine ⟨hcd, ?_⟩
      by_cases henv : (pyContainsChar cmd eqc
        && !(pyStartsWith cmd "export " || pyStartsWith cmd "echo " || pyStartsWith cmd "printf ")) = true
      · exact henv
      · exfalso
        simp only [Bool.not_eq_true] at henv
        unfold dispatchOne at h
        rw [hcd, henv] at h
        simp only [Bool.false_eq_true, if_false] at h
        have hst : (handle_normal cfg remote st cmd).1 = st' :=
          congrArg Prod.fst (Except.ok.inj h)
        exact hne (hst ▸ (handle_normal_frame cfg remote st cmd).2.1)
  · intro st' out sent h
    exact dispatchOne_history cfg remote st cmd st' out sent h
  · intro raw st' out results sent h
    unfold execute_command at h
    simp only [bind, Except.bind] at h
    cases hl : executeList cfg remote st (subCommands raw) with
    | error e => rw [hl] at h; exact absurd h (by simp)
    | ok w =>
      rw [hl] at h
      obtain ⟨st2, outs, sents⟩ := w
      dsimp only at h
      have hst : st2 = st' := congrArg Prod.fst (Except.ok.inj h)
      exact hst ▸ executeList_history cfg remote (subCommands raw) st st2 outs sents hl

/-- Witness for C9: the normal command `ls -la` leaves the directory and
environment of the concrete session untouched and appends itself to the
history. -/
theorem dispatch_frame_effects_witness :
    (⟨"/tmp", [("A", "b")], ["old"]⟩ : SessionState).current_directory = "/tmp" ∧
    ∀ st' out sent,
      dispatchOne ⟨"alice"⟩ ⟨fun _ => "out", fun _ => false, fun _ => ""⟩
        ⟨"/tmp", [("A", "b")], ["old"]⟩ "ls -la" = .ok (st', out, sent) →
      st'.current_directory = "/tmp" ∧
      st'.environment_vars = [("A", "b")] ∧
      (st'.command_history = ["old"] ∨ st'.command_history = ["old"] ++ ["ls -la"]) :=
  ⟨rfl, fun st' out sent h =>
    (dispatch_frame_effects ⟨"alice"⟩ ⟨fun _ => "out", fun _ => false, fun _ => ""⟩
      ⟨"/tmp", [("A", "b")], ["old"]⟩ "ls -la").1 (by decide) (by decide) st' out sent h⟩

/-- The sub-command loop produces exactly one output per sub-command. -/
theorem executeList_length (cfg : Config) (remote : Remote) :
    ∀ (l : List String) (st st' : SessionState) (results sent : List String),
    executeList cfg remote st l = .ok (st', results, sent) →
    results.length = l.length := by
  intro l
  induction l with
  | nil =>
    intro st st' results sent h
    simp only [executeList, Except.ok.injEq, Prod.mk.injEq] at h
    simp [← h.2.1]
  | cons c cs ih =>
    intro st st' results sent h
    simp only [executeList, bind, Except.bind] at h
    cases hd : dispatchOne cfg remote st c with
    | error e => rw [hd] at h; exact absurd h (by simp)
    | ok v =>
      rw [hd] at h
      obtain ⟨st1, out1, sent1⟩ := v
      dsimp only at h
      cases hrest : executeList cfg remote st1 cs with
      | error e => rw [hrest] at h; exact absurd h (by simp)
      | ok w =>
        rw [hrest] at h
        obtain ⟨st2, outs, sents⟩ := w
        simp only [Except.ok.injEq, Prod.mk.injEq] at h
        rw [← h.2.1]
        simp [ih st1 st2 outs sents hrest]

/-- Splitting the sub-command loop around any designated middle element: the
steps before it run first, then it is dispatched against the accumulated
state, then the remaining steps run — and its output sits in the
corresponding position of the results, whatever that output says. -/
theorem executeList_decompose (cfg : Config) (remote : Remote) :
    ∀ (pre : List String) (c : String) (post : List String)
      (st st' : SessionState) (results sent : List String),
    executeList cfg remote st (pre ++ c :: post) = .ok (st', results, sent) →
    ∃ stPre rPre sPre st1 o1 s1 rPost sPost,
      executeList cfg remote st pre = .ok (stPre, rPre, sPre) ∧
      dispatchOne cfg remote stPre c = .ok (st1, o1, s1) ∧
      executeList cfg remote st1 post = .ok (st', rPost, sPost) ∧
      results = rPre ++ o1 :: rPost := by
  intro pre
  induction pre with
  | nil =>
    intro c post st st' results sent h
    simp only [List.nil_append] at h
    simp only [executeList, bind, Except.bind] at h
    cases hd : dispatchOne cfg remote st c with
    | error e => rw [hd] at h; exact absurd h (by simp)
    | ok v =>
      rw [hd] at h
      obtain ⟨st1, out1, sent1⟩ := v
      dsimp only at h
      cases hrest : executeList cfg remote st1 post with
      | error e => rw [hrest] at h; exact absurd h (by simp)
      | ok w =>
        rw [hrest] at h
        obtain ⟨st2, outs, sents⟩ := w
        simp only [Except.ok.injEq, Prod.mk.injEq] at h
        refine ⟨st, [], [], st1, out1, sent1, outs, sents, rfl, hd, ?_, ?_⟩
        · rw [h.1] at hrest
          exact hrest
        · rw [← h.2.1]
          simp
  | cons p ps ih =>
    intro c post st st' results sent h
    simp only [List.cons_append] at h
    simp only [executeList, bind, Except.bind] at h
    cases hd : dispatchOne cfg remote st p with
    | error e => rw [hd] at h; exact absurd h (by simp)
    | ok v =>
      rw [hd] at h
      obtain ⟨st1, out1, sent1⟩ := v
      dsimp only at h
      cases hrest : executeList cfg remote st1 (ps ++ c :: post) with
      | error e => rw [hrest] at h; exact absurd h (by simp)
      | ok w =>
        rw [hrest] at h
        obtain ⟨st2, outs, sents⟩ := w
        simp only [Except.ok.injEq, Prod.mk.injEq] at h
        rw [← h.1] at *
        obtain ⟨stPre, rPre, sPre, stc, oc, sc, rPost, sPost, hPre, hc, hPost, hrs⟩ :=
          ih c post st1 st2 outs sents hrest
        refine ⟨stPre, out1 :: rPre, sent1 ++ sPre, stc, oc, sc, rPost, sPost, ?_, hc, hPost, ?_⟩
        · simp only [executeList, bind, Except.bind, hd, hPre]
        · rw [← h.2.1, hrs]
          simp

/-- C5: `execute_command` splits its input on `&&` into ordered non-blank
sub-commands, executes every one of them sequentially — each against the
state left by its predecessors, with no short-circuit whatever an earlier
output text of an earlier sub-command reports — and returns the outputs joined by
newlines in execution order, one output per sub-command. -/
theorem execute_no_short_circuit (cfg : Config) (remote : Remote)
    (st : SessionState) (raw : String) (st' : SessionState) (out : String)
    (results sent : List String)
    (h : execute_command cfg remote st raw = .ok (st', out, results, sent)) :
    out = String.intercalate "\n" results ∧
    results.length = (subCommands raw).length ∧
    ∀ pre c post, subCommands raw = pre ++ c :: post →
      ∃ stPre rPre sPre st1 o1 s1 rPost sPost,
        executeList cfg remote st pre = .ok (stPre, rPre, sPre) ∧
        dispatchOne cfg remote stPre c = .ok (st1, o1, s1) ∧
        executeList cfg remote st1 post = .ok (st', rPost, sPost) ∧
        results = rPre ++ o1 :: rPost := by
  unfold execute_command at h
  simp only [bind, Except.bind] at h
  cases hl : executeList cfg remote st (subCommands raw) with
  | error e => rw [hl] at h; exact absurd h (by simp)
  | ok w =>
    rw [hl] at h
    obtain ⟨st2, outs, sents⟩ := w
    simp only [Except.ok.injEq, Prod.mk.injEq] at h
    obtain ⟨hst, hout, hres, hsent⟩ := h
    refine ⟨?_, ?_, ?_⟩
    · rw [← hout, ← hres]
    · rw [← hres]
      exact executeList_length cfg remote (subCommands raw) st st2 outs sents hl
    · intro pre c post hsplit
      rw [hsplit] at hl
      rw [← hst, ← hres]
      exact executeList_decompose cfg remote pre c post st st2 outs sents hl

/-- Witness for C5: in a concrete chained call whose first sub-command reports
`Directory not found`, the second sub-command still executes and its output
still appears after the first, joined by a newline. -/
theorem execute_no_short_circuit_witness :
    execute_command ⟨"alice"⟩
      ⟨fun _ => "Directory not found", fun _ => false, fun _ => ""⟩
      ⟨"/home/alice", [], []⟩ "cd /nope && pwd" =
      .ok (⟨"/home/alice", [], ["pwd"]⟩,
           "Directory not found\nDirectory not found",
           ["Directory not found", "Directory not found"],
           [cdCheckCmd ⟨"alice"⟩ "/home/alice" "/nope",
            normalFullCmd ⟨"alice"⟩ ⟨"/home/alice", [], []⟩ "pwd"]) ∧
    "Directory not found\nDirectory not found" =
      String.intercalate "\n" ["Directory not found", "Directory not found"] ∧
    (["Directory not found", "Directory not found"] : List String).length =
      (subCommands "cd /nope && pwd").length :=
  have h : execute_command ⟨"alice"⟩
      ⟨fun _ => "Directory not found", fun _ => false, fun _ => ""⟩
      ⟨"/home/alice", [], []⟩ "cd /nope && pwd" =
      .ok (⟨"/home/alice", [], ["pwd"]⟩,
           "Directory not found\nDirectory not found",
           ["Directory not found", "Directory not found"],
           [cdCheckCmd ⟨"alice"⟩ "/home/alice" "/nope",
            normalFullCmd ⟨"alice"⟩ ⟨"/home/alice", [], []⟩ "pwd"]) := rfl
  ⟨h,
   (execute_no_short_circuit _ _ _ _ _ _ _ _ h).1,
   (execute_no_short_circuit _ _ _ _ _ _ _ _ h).2.1⟩

/-- As long as no undo-related LLM call raises, the compensation loop visits
every index of its list in order, issuing one inverse-synthesis call each,
executes exactly the inverses synthesized as non-empty, and reports a failure
flag exactly when some executed inverse was judged failed — an individual
failed inverse never stops the scan. -/
theorem compensate_ok (undoSyn : Nat → Except String (Option String))
    (undoExec : Nat → Except String (String × String × Bool)) :
    ∀ (l : List Nat),
    (∀ j ∈ l, ∃ v, undoSyn j = .ok v) →
    (∀ j ∈ l, ∃ v, undoExec j = .ok v) →
    compensate undoSyn undoExec l =
      .ok (l, l.filter (synSome undoSyn),
           (l.filter (synSome undoSyn)).any (undoFailed undoExec)) := by
  intro l
  induction l with
  | nil => intro _ _; rfl
  | cons j rest ih =>
    intro hsyn hexec
    obtain ⟨v, hv⟩ := hsyn j (by simp)
    have hrest := ih (fun a ha => hsyn a (by simp [ha])) (fun a ha => hexec a (by simp [ha]))
    cases v with
    | none =>
      have hfilt : synSome undoSyn j = false := by unfold synSome; rw [hv]
      simp only [compensate, bind, Except.bind, hv]
      rw [hrest]
      simp [List.filter, hfilt]
    | some s =>
      obtain ⟨w, hw⟩ := hexec j (by simp)
      obtain ⟨a, b, succ⟩ := w
      have hfilt : synSome undoSyn j = true := by unfold synSome; rw [hv]
      have hfail : undoFailed undoExec j = !succ := by unfold undoFailed; rw [hw]
      simp only [compensate, bind, Except.bind, hv, hw]
      rw [hrest]
      simp [List.filter, hfilt, List.any_cons, hfail]

/-- Prepending a run of successfully judged steps to the step loop: they
execute in order, contribute their narrations to `step_memory` and their
records to `step_summaries`, and the rest of the loop proceeds unchanged. -/
theorem runSteps_prefix_success
    (fwd : Nat → Except String (String × String × Bool))
    (undoSyn : Nat → Except String (Option String))
    (undoExec : Nat → Except String (String × String × Bool))
    (resp tstr : Nat → String) :
    ∀ (l1 l2 : List Nat),
    (∀ i ∈ l1, fwd i = .ok (resp i, tstr i, true)) →
    runSteps fwd undoSyn undoExec (l1 ++ l2) =
      match runSteps fwd undoSyn undoExec l2 with
      | .ok t => .ok ⟨l1 ++ t.executed, t.synCalls, t.execCalls,
                      memConcat resp l1 ++ t.stepMemory,
                      sumConcat resp tstr l1 ++ t.stepSummaries,
                      t.undoFailures, t.toolSuccess⟩
      | .error e => .error e := by
  intro l1
  induction l1 with
  | nil =>
    intro l2 _
    cases ht : runSteps fwd undoSyn undoExec l2 with
    | error e => simpa using ht
    | ok t =>
      simp only [List.nil_append, memConcat, sumConcat]
      rw [ht, String.empty_append]
  | cons i l1 ih =>
    intro l2 hsucc
    have hi := hsucc i (by simp)
    simp only [List.cons_append, runSteps, bind, Except.bind, hi, if_true, List.append_eq]
    rw [ih l2 (fun a ha => hsucc a (by simp [ha]))]
    cases ht : runSteps fwd undoSyn undoExec l2 with
    | error e => rfl
    | ok t =>
      dsimp only
      simp only [memConcat, sumConcat, List.cons_append, String.append_assoc]

/-- The full trace of a run whose first judged failure is at index `f`: the
prefix `0..f-1` runs successfully, step `f` fails, compensation sweeps
`f, ..., 0`, and the loop breaks. -/
theorem runSteps_first_fail
    (fwd : Nat → Except String (String × String × Bool))
    (undoSyn : Nat → Except String (Option String))
    (undoExec : Nat → Except String (String × String × Bool))
    (N f : Nat) (resp tstr : Nat → String)
    (hfN : f < N)
    (hsucc : ∀ i, i < f → fwd i = .ok (resp i, tstr i, true))
    (hfail : fwd f = .ok (resp f, tstr f, false))
    (hsyn : ∀ j, j ≤ f → ∃ v, undoSyn j = .ok v)
    (hexec : ∀ j, j ≤ f → ∃ v, undoExec j = .ok v) :
    runSteps fwd undoSyn undoExec (List.range N) =
      .ok ⟨List.range f ++ [f], (List.range (f+1)).reverse,
           ((List.range (f+1)).reverse).filter (synSome undoSyn),
           memConcat resp (List.range f) ++ failureBlock f (resp f),
           sumConcat resp tstr (List.range f) ++ [],
           (((List.range (f+1)).reverse).filter (synSome undoSyn)).any (undoFailed undoExec),
           false⟩ := by
  obtain ⟨m, hm⟩ : ∃ m, N = f + (1 + m) := ⟨N - f - 1, by omega⟩
  subst hm
  have hcomp := compensate_ok undoSyn undoExec ((List.range (f+1)).reverse)
    (fun j hj => hsyn j (by simp only [List.mem_reverse, List.mem_range] at hj; omega))
    (fun j hj => hexec j (by simp only [List.mem_reverse, List.mem_range] at hj; omega))
  have hstep : runSteps fwd undoSyn undoExec (f :: ((List.range m).map Nat.succ).map (f + ·)) =
      .ok ⟨[f], (List.range (f+1)).reverse,
           ((List.range (f+1)).reverse).filter (synSome undoSyn),
           failureBlock f (resp f), [],
           (((List.range (f+1)).reverse).filter (synSome undoSyn)).any (undoFailed undoExec),
           false⟩ := by
    simp only [runSteps, bind, Except.bind, hfail, Bool.false_eq_true, if_false]
    rw [hcomp]
  have hsplit : List.range (f + (1 + m)) =
      List.range f ++ f :: ((List.range m).map Nat.succ).map (f + ·) := by
    rw [List.range_add]
    have hr1 : List.range (1 + m) = 0 :: (List.range m).map Nat.succ := by
      rw [Nat.add_comm]; exact List.range_succ_eq_map m
    rw [hr1]
    simp
  rw [hsplit,
      runSteps_prefix_success fwd undoSyn undoExec resp tstr (List.range f) _
        (fun i hi => hsucc i (List.mem_range.mp hi)),
      hstep]

/-- The full trace of a run in which every step of the given index list is
judged successful: every step executes in order, no compensation happens, and
the narrations accumulate in order. -/
theorem runSteps_all_success
    (fwd : Nat → Except String (String × String × Bool))
    (undoSyn : Nat → Except String (Option String))
    (undoExec : Nat → Except String (String × String × Bool))
    (resp tstr : Nat → String) (l : List Nat)
    (hsucc : ∀ i ∈ l, fwd i = .ok (resp i, tstr i, true)) :
    runSteps fwd undoSyn undoExec l =
      .ok ⟨l, [], [], memConcat resp l, sumConcat resp tstr l, false, true⟩ := by
  have h := runSteps_prefix_success fwd undoSyn undoExec resp tstr l [] hsucc
  rw [List.append_nil] at h
  rw [h]
  simp only [runSteps]
  simp [String.append_empty]

/-- C1: in a plan of `N` steps whose first judged failure is step `f`
(0-indexed; step `k = f + 1` in the 1-indexed numbering of the claim), the runner
executes exactly the steps `0, ..., f`, once each and in plan order — steps
after `f` are never executed — and compensation then issues exactly `f + 1`
inverse-synthesis calls visiting `f, f-1, ..., 0` in strict reverse order,
executing every synthesized non-empty inverse; a judged inverse failure only
sets the `undo_failures` flag (which ends up true exactly when some executed
inverse failed) and never stops the reverse scan. -/
theorem plan_compensation_order
    (fwd : Nat → Except String (String × String × Bool))
    (undoSyn : Nat → Except String (Option String))
    (undoExec : Nat → Except String (String × String × Bool))
    (N f : Nat) (resp tstr : Nat → String)
    (hfN : f < N)
    (hsucc : ∀ i, i < f → fwd i = .ok (resp i, tstr i, true))
    (hfail : fwd f = .ok (resp f, tstr f, false))
    (hsyn : ∀ j, j ≤ f → ∃ v, undoSyn j = .ok v)
    (hexec : ∀ j, j ≤ f → ∃ v, undoExec j = .ok v) :
    ∃ t, runSteps fwd undoSyn undoExec (List.range N) = .ok t ∧
      t.executed = List.range (f+1) ∧
      t.synCalls = (List.range (f+1)).reverse ∧
      t.execCalls = ((List.range (f+1)).reverse).filter (synSome undoSyn) ∧
      t.undoFailures =
        (((List.range (f+1)).reverse).filter (synSome undoSyn)).any (undoFailed undoExec) ∧
      t.toolSuccess = false := by
  rw [runSteps_first_fail fwd undoSyn undoExec N f resp tstr hfN hsucc hfail hsyn hexec]
  exact ⟨_, rfl, by simp [List.range_succ], rfl, rfl, rfl, rfl⟩

/-- Witness for C1: a concrete three-step plan failing at its second step
(`f = 1`, i.e. step 2 of 3), with an inverse that itself fails: both steps 1
and 2 execute, step 3 never does, both inverse-synthesis calls are issued in
reverse order, both inverses execute, and the failed inverse sets the flag
without stopping the scan. -/
theorem plan_compensation_order_witness :
    ∃ t, runSteps
        (fun i => .ok ("r", "t", i != 1))
        (fun _ => .ok (some "undo"))
        (fun j => .ok ("ur", "ut", j != 1))
        (List.range 3) = .ok t ∧
      t.executed = List.range 2 ∧
      t.synCalls = (List.range 2).reverse ∧
      t.execCalls = ((List.range 2).reverse).filter (synSome (fun _ => .ok (some "undo"))) ∧
      t.undoFailures =
        (((List.range 2).reverse).filter (synSome (fun _ => .ok (some "undo")))).any
          (undoFailed (fun j => .ok ("ur", "ut", j != 1))) ∧
      t.toolSuccess = false :=
  plan_compensation_order
    (fun i => .ok ("r", "t", i != 1))
    (fun _ => .ok (some "undo"))
    (fun j => .ok ("ur", "ut", j != 1))
    3 1 (fun _ => "r") (fun _ => "t")
    (by omega)
    (fun i hi => by
      have : i = 0 := by omega
      subst this
      rfl)
    rfl
    (fun j _ => ⟨some "undo", rfl⟩)
    (fun j _ => ⟨("ur", "ut", j != 1), rfl⟩)

/-- C2: for every run of a plan that reaches the end of its step loop, the
per-user memory list grows by exactly one entry, appended exactly once after
the loop; the entry is the concatenation, in step order, of the narration
blocks of the steps executed before compensation began — all `N` success
blocks when every step succeeds (`f = N`), the success blocks of steps
`0..f-1` plus the failure block of step `f` when step `f` is the first judged
failure (`f < N`) — and, whatever the compensation oracles answer, no
compensation narration appears in the entry (its value does not mention
them). -/
theorem memory_single_append
    (fwd : Nat → Except String (String × String × Bool))
    (undoSyn : Nat → Except String (Option String))
    (undoExec : Nat → Except String (String × String × Bool))
    (N f : Nat) (resp tstr : Nat → String) (memory : List String)
    (hfN : f ≤ N)
    (hsucc : ∀ i, i < f → fwd i = .ok (resp i, tstr i, true))
    (hfail : f < N → fwd f = .ok (resp f, tstr f, false))
    (hsyn : ∀ j, j ≤ f → ∃ v, undoSyn j = .ok v)
    (hexec : ∀ j, j ≤ f → ∃ v, undoExec j = .ok v) :
    ∃ t, runAgent fwd undoSyn undoExec N memory = .ok (memory ++ [t.stepMemory], t) ∧
      t.stepMemory = memConcat resp (List.range f) ++
        (if f < N then failureBlock f (resp f) else "") := by
  by_cases hlt : f < N
  · have hrun := runSteps_first_fail fwd undoSyn undoExec N f resp tstr hlt
      hsucc (hfail hlt) hsyn hexec
    refine ⟨⟨List.range f ++ [f], (List.range (f+1)).reverse,
            ((List.range (f+1)).reverse).filter (synSome undoSyn),
            memConcat resp (List.range f) ++ failureBlock f (resp f),
            sumConcat resp tstr (List.range f) ++ [],
            (((List.range (f+1)).reverse).filter (synSome undoSyn)).any (undoFailed undoExec),
            false⟩, ?_, ?_⟩
    · unfold runAgent
      rw [hrun]
      rfl
    · simp [hlt]
  · have hfe : N = f := by omega
    subst hfe
    have hrun := runSteps_all_success fwd undoSyn undoExec resp tstr (List.range N)
      (fun i hi => hsucc i (List.mem_range.mp hi))
    refine ⟨⟨List.range N, [], [], memConcat resp (List.range N),
            sumConcat resp tstr (List.range N), false, true⟩, ?_, ?_⟩
    · unfold runAgent
      rw [hrun]
      rfl
    · simp [hlt, String.append_empty]

/-- Witness for C2: a concrete two-step plan whose second step fails; the
memory list `["old"]` grows by exactly the one entry made of the success
block of step 1 followed by the failure block of step 2. -/
theorem memory_single_append_witness :
    ∃ t, runAgent
        (fun i => .ok ("r", "t", i != 1))
        (fun _ => .ok (some "undo"))
        (fun _ => .ok ("ur", "ut", true))
        2 ["old"] = .ok (["old"] ++ [t.stepMemory], t) ∧
      t.stepMemory = memConcat (fun _ => "r") (List.range 1) ++
        (if 1 < 2 then failureBlock 1 "r" else "") :=
  memory_single_append
    (fun i => .ok ("r", "t", i != 1))
    (fun _ => .ok (some "undo"))
    (fun _ => .ok ("ur", "ut", true))
    2 1 (fun _ => "r") (fun _ => "t") ["old"]
    (by omega)
    (fun i hi => by
      have : i = 0 := by omega
      subst this
      rfl)
    (fun _ => rfl)
    (fun j _ => ⟨some "undo", rfl⟩)
    (fun j _ => ⟨("ur", "ut", true), rfl⟩)

/-- C6: a success-judgment value that is neither the string token `"True"`
nor `"False"` (any other string, or a value of a different JSON type) makes
`get_data_with_tools` raise — the exception is not swallowed — and when a
step of a running plan hits this, the exception propagates to the top-level
handler of `run`, which leaves memory untouched and replies with the generic
failure message instead of letting the exception escape. -/
theorem judgment_contract (v : JVal)
    (hv1 : v ≠ JVal.jstr "True") (hv2 : v ≠ JVal.jstr "False") :
    (∀ final_tool_str failNarr succNarr,
      get_data_with_tools v final_tool_str failNarr succNarr = .error judgmentErrorMsg) ∧
    (∀ (judg : Nat → JVal) (fts fn sn : Nat → String)
       (undoSyn : Nat → Except String (Option String))
       (undoExec : Nat → Except String (String × String × Bool))
       (N i : Nat) (memory : List String) (finalResponse : String)
       (resp tstr : Nat → String),
      i < N →
      (∀ i2, i2 < i →
        get_data_with_tools (judg i2) (fts i2) (fn i2) (sn i2) =
          .ok (resp i2, tstr i2, true)) →
      judg i = v →
      runTop (fun a => get_data_with_tools (judg a) (fts a) (fn a) (sn a))
        undoSyn undoExec N memory finalResponse = (memory, genericErrorReply)) := by
  have herr : ∀ final_tool_str failNarr succNarr,
      get_data_with_tools v final_tool_str failNarr succNarr = .error judgmentErrorMsg := by
    intro fts fn sn
    simp [get_data_with_tools, checkJudgment, hv1, hv2, bind, Except.bind]
  refine ⟨herr, ?_⟩
  intro judg fts fn sn undoSyn undoExec N i memory finalResponse resp tstr hiN hpre hjv
  obtain ⟨m, hm⟩ : ∃ m, N = i + (1 + m) := ⟨N - i - 1, by omega⟩
  subst hm
  have hsplit : List.range (i + (1 + m)) =
      List.range i ++ i :: ((List.range m).map Nat.succ).map (i + ·) := by
    rw [List.range_add]
    have hr1 : List.range (1 + m) = 0 :: (List.range m).map Nat.succ := by
      rw [Nat.add_comm]; exact List.range_succ_eq_map m
    rw [hr1]
    simp
  have hstep : runSteps (fun a => get_data_with_tools (judg a) (fts a) (fn a) (sn a))
      undoSyn undoExec (i :: ((List.range m).map Nat.succ).map (i + ·)) =
      .error judgmentErrorMsg := by
    have hi : get_data_with_tools (judg i) (fts i) (fn i) (sn i) = .error judgmentErrorMsg := by
      rw [hjv]; exact herr _ _ _
    simp [runSteps, bind, Except.bind, hi]
  have hrun : runSteps (fun a => get_data_with_tools (judg a) (fts a) (fn a) (sn a))
      undoSyn undoExec (List.range (i + (1 + m))) = .error judgmentErrorMsg := by
    rw [hsplit,
        runSteps_prefix_success _ undoSyn undoExec resp tstr (List.range i) _
          (fun a ha => hpre a (List.mem_range.mp ha)),
        hstep]
  unfold runTop runAgent
  rw [hrun]
  rfl

/-- Witness for C6: the lowercase string `"true"` violates the judgment
contract; in a concrete one-step plan it raises and the top-level handler
replies with the generic failure message, memory unchanged. -/
theorem judgment_contract_witness :
    get_data_with_tools (JVal.jstr "true") "ts" "fn" "sn" = .error judgmentErrorMsg ∧
    runTop (fun a => get_data_with_tools ((fun _ => JVal.jstr "true") a)
        ((fun _ => "ts") a) ((fun _ => "fn") a) ((fun _ => "sn") a))
      (fun _ => .ok none) (fun _ => .ok ("", "", true)) 1 ["old"] "final" =
      (["old"], genericErrorReply) :=
  have h := judgment_contract (JVal.jstr "true") (by decide) (by decide)
  ⟨h.1 "ts" "fn" "sn",
   h.2 (fun _ => JVal.jstr "true") (fun _ => "ts") (fun _ => "fn") (fun _ => "sn")
     (fun _ => .ok none) (fun _ => .ok ("", "", true)) 1 0 ["old"] "final"
     (fun _ => "") (fun _ => "")
     (by omega) (fun i2 hi2 => absurd hi2 (by omega)) rfl⟩

/-- Concatenating the chunks of a stride-`b+1` slice loop gives back the
original list: nothing is lost or duplicated at chunk boundaries. -/
theorem chunksOf_flatten {α : Type} (b : Nat) :
    ∀ l : List α, (chunksOf (b+1) l).flatten = l
  | [] => by simp [chunksOf]
  | x :: xs => by
      have ih := chunksOf_flatten b (xs.drop b)
      simp only [chunksOf, List.flatten_cons]
      rw [ih]
      have hd : (x :: xs).drop (b+1) = xs.drop b := List.drop_succ_cons
      rw [← hd, List.take_append_drop]
termination_by l => l.length
decreasing_by simp; omega

/-- A stride-`b+1` slice loop over a list of length `L` emits exactly
`⌈L / (b+1)⌉ = (L + b) / (b+1)` chunks. -/
theorem chunksOf_length {α : Type} (b : Nat) :
    ∀ l : List α, (chunksOf (b+1) l).length = (l.length + b) / (b+1)
  | [] => by simp [chunksOf, Nat.div_eq_of_lt (show b < b+1 by omega)]
  | x :: xs => by
      have ih := chunksOf_length b (xs.drop b)
      simp only [chunksOf, List.length_cons]
      rw [ih]
      simp only [List.length_drop]
      rcases le_or_lt b xs.length with hb | hb
      · have h1 : xs.length - b + b = xs.length := by omega
        have h2 : xs.length + 1 + b = xs.length + (b + 1) := by omega
        rw [h1, h2, Nat.add_div_right _ (by omega)]
      · have h1 : xs.length - b = 0 := by omega
        rw [h1]
        have h2 : (0 + b) / (b + 1) = 0 := Nat.div_eq_of_lt (by omega)
        have h3 : (xs.length + 1 + b) / (b + 1) = 1 := by
          apply Nat.div_eq_of_lt_le (by omega)
          have : Nat.succ 1 * (b + 1) = 2 * b + 2 := by ring
          omega
        rw [h2, h3]
termination_by l => l.length
decreasing_by simp; omega

/-- The `i`-th chunk of a stride-`b+1` slice loop is exactly the contiguous
slice `l[i*(b+1) : i*(b+1) + (b+1)]` of the original list. -/
theorem chunksOf_get {α : Type} (b : Nat) :
    ∀ (l : List α) (i : Nat), i < (chunksOf (b+1) l).length →
    (chunksOf (b+1) l)[i]? = some ((l.drop (i * (b+1))).take (b+1))
  | [], i => by intro h; simp [chunksOf] at h
  | x :: xs, 0 => by
      intro _
      simp [chunksOf]
  | x :: xs, i+1 => by
      intro h
      have hlen : i < (chunksOf (b+1) (xs.drop b)).length := by
        simp only [chunksOf, List.length_cons] at h
        omega
      have ih := chunksOf_get b (xs.drop b) i hlen
      simp only [chunksOf, List.getElem?_cons_succ]
      rw [ih, List.drop_drop]
      have harith : b + i * (b + 1) = i * (b + 1) + b := by omega
      rw [harith]
      have hstep : (x :: xs).drop ((i+1) * (b+1)) = xs.drop (i * (b+1) + b) := by
        have : (i+1) * (b+1) = (i * (b+1) + b) + 1 := by ring
        rw [this, List.drop_succ_cons]
      rw [hstep]
termination_by l => l.length
decreasing_by simp; omega

/-- C8: a narration longer than the platform boundary `B = 1900` is sent in
exactly `⌈L / B⌉` chunks; each chunk is the contiguous slice of the original
narration starting at its offset, the chunks appear in original order, and
their concatenation is exactly the original narration — no character lost or
duplicated at chunk boundaries. -/
theorem narration_chunking (s : List Char) (h : 1900 < s.length) :
    (narrationChunks s).length = (s.length + 1899) / 1900 ∧
    (narrationChunks s).flatten = s ∧
    ∀ i (hi : i < (narrationChunks s).length),
      (narrationChunks s).get ⟨i, hi⟩ = (s.drop (i * 1900)).take 1900 :=
  ⟨chunksOf_length 1899 s, chunksOf_flatten 1899 s,
   fun i hi => by
     have h2 : (narrationChunks s)[i]? = some ((s.drop (i * 1900)).take 1900) :=
       chunksOf_get 1899 s i hi
     rw [List.getElem?_eq_getElem hi] at h2
     rw [List.get_eq_getElem]
     exact Option.some.inj h2⟩

/-- Witness for C8: a concrete 1901-character narration exceeds the boundary
and its chunks satisfy the chunking properties. -/
theorem narration_chunking_witness :
    1900 < (List.replicate 1901 'a').length ∧
    ((narrationChunks (List.replicate 1901 'a')).length =
       ((List.replicate 1901 'a').length + 1899) / 1900 ∧
     (narrationChunks (List.replicate 1901 'a')).flatten = List.replicate 1901 'a' ∧
     ∀ i (hi : i < (narrationChunks (List.replicate 1901 'a')).length),
       (narrationChunks (List.replicate 1901 'a')).get ⟨i, hi⟩ =
         ((List.replicate 1901 'a').drop (i * 1900)).take 1900) :=
  ⟨by rw [List.length_replicate]; omega,
   narration_chunking (List.replicate 1901 'a') (by rw [List.length_replicate]; omega)⟩

/-- C3 counterexample: with a remote on which no README exists (every probe
answers `"No README file found"`), `analyze_readme_for_setup` does return the
Warning status with an empty step list — but `setup_github_project` treats
that Warning as a hard failure: its status check `!= "Success"` catches
`"Warning"` too, so it aborts with a `Failed` result instead of proceeding
with zero setup steps. -/
theorem readme_warning_counterexample :
    (analyze_readme_for_setup (fun _ => "No README file found") (.ok []) "myrepo").status
      = "Warning" ∧
    (analyze_readme_for_setup (fun _ => "No README file found") (.ok []) "myrepo").setup_steps
      = some [] ∧
    (setup_github_project (fun _ => "No README file found") (.ok []) "myrepo").status
      = "Failed" ∧
    (setup_github_project (fun _ => "No README file found") (.ok []) "myrepo").steps_executed
      = [] :=
  ⟨rfl, rfl, rfl, rfl⟩

/-- C3 (amended): when no README is found, `analyze_readme_for_setup` returns
a Warning status with an empty setup-step list; however the Warning IS a hard
failure for the setup operation: because its status is not `"Success"`,
`setup_github_project` aborts with a `Failed` result and executes zero setup
steps, rather than proceeding. -/
theorem readme_warning_amended (exec : String → String)
    (llm : Except String (List String)) (repo_directory : String)
    (h : containsSubstr (exec (readmeCheckCmd repo_directory)) "No README file found" = true) :
    analyze_readme_for_setup exec llm repo_directory =
      { status := "Warning",
        error := some "No README file found in the repository",
        setup_steps := some [],
        readme_content := none, analysis := none } ∧
    setup_github_project exec llm repo_directory =
      { status := "Failed",
        error := some "README analysis failed: No README file found in the repository",
        steps_executed := [] } := by
  have hana : analyze_readme_for_setup exec llm repo_directory =
      { status := "Warning",
        error := some "No README file found in the repository",
        setup_steps := some [],
        readme_content := none, analysis := none } := by
    simp only [analyze_readme_for_setup]
    rw [h]
    rfl
  refine ⟨hana, ?_⟩
  unfold setup_github_project
  rw [hana]
  rfl

/-- Witness for the amended C3: the concrete no-README remote. -/
theorem readme_warning_amended_witness :
    analyze_readme_for_setup (fun _ => "No README file found") (.ok ["pip install x"]) "repo2" =
      { status := "Warning",
        error := some "No README file found in the repository",
        setup_steps := some [],
        readme_content := none, analysis := none } ∧
    setup_github_project (fun _ => "No README file found") (.ok ["pip install x"]) "repo2" =
      { status := "Failed",
        error := some "README analysis failed: No README file found in the repository",
        steps_executed := [] } :=
  readme_warning_amended (fun _ => "No README file found") (.ok ["pip install x"]) "repo2"
    (by decide)

end Lebot
